import Mathlib

/-!
Verification of the typed-express router/middleware design.

The repository's `src/lib/router/index.d.ts` is a pure type-declaration
surface (handler shapes, the `Router` interface, the registration methods);
the routing and dispatch engine it describes carries no executable code in
the repository, so the engine itself is modelled here from the design
document (spec sections 3, 4.1-4.4, 7), while the handler shapes, arities
and registration signatures are taken from `index.d.ts` and the smoke tests
`src/test/app.ts`, `src/test/router-options.ts`.

Paths and registration patterns are represented at segment granularity
(`List String`), which loses nothing the design's matching semantics need:
literal and placeholder segments, mount-prefix matching on a segment
boundary with a remainder, and case sensitivity.
-/

namespace TypedExpress

/-- Request paths, split into segments, e.g. `/api/users/7` is
`["api", "users", "7"]`. -/
abbrev Path := List String

/-- A parameter bag: ordered name/value bindings (`request.params`). -/
abbrev Params := List (String × String)

/-- Handler kind tag from `index.d.ts`: `RequestHandler` (3 parameters) is
normal-kind, `ErrorHandler` (4 parameters: err, req, res, next) is
error-kind. -/
inductive HKind
  | normal
  | error
deriving DecidableEq, Repr

/-- Modelled from the spec: the terminal action a handler takes on one
invocation (missing from `src`: the declarations give handlers the shape
`(req, res, next) -> any` without behaviour).  A handler either calls
`next()` with no argument, calls `next(e)`, throws synchronously, or
writes/ends the response (optionally still calling `next()` afterwards,
which spec 4.4 requires the dispatcher to ignore). -/
inductive HAct
  | callNext
  | callNextError (e : Nat)
  | throwSync (e : Nat)
  | complete
  | completeThenNext
deriving DecidableEq, Repr

/-- A registered handler: an identity, the declared parameter count
(3 for `RequestHandler`, 4 for `ErrorHandler`, per `index.d.ts` lines
14-20), and its behaviour. -/
structure Handler where
  hid : Nat
  arity : Nat
  act : HAct
deriving DecidableEq, Repr

/-- Kind assigned at registration time from the declared arity
(`index.d.ts`: four parameters = `ErrorHandler`, three = `RequestHandler`;
spec 4.4 and 9). -/
def hkind (h : Handler) : HKind :=
  if h.arity = 4 then .error else .normal

/-- Modelled from the spec: effect of one handler invocation on the
dispatch state (missing from `src`: the continuation protocol of spec 4.4).
Returns the error slot after the handler ran and whether the response is
now complete.  `next()` clears the error slot (an error-kind handler
recovering), `next(e)` and a synchronous throw both set it, completing the
response sets the completion flag. -/
def applyAct : HAct → Option Nat × Bool
  | .callNext => (none, false)
  | .callNextError e => (some e, false)
  | .throwSync e => (some e, false)
  | .complete => (none, true)
  | .completeThenNext => (none, true)

/-- One segment of a compiled path pattern: a literal, or a named
placeholder binding one segment (spec 4.1). -/
inductive Seg
  | lit (s : String)
  | prm (name : String)
deriving DecidableEq, Repr

/-- Matching options recognized at Router construction
(`src/test/router-options.ts`): `{caseSensitive, strict, mergeParams}`. -/
structure Options where
  caseSensitive : Bool
  strict : Bool
  mergeParams : Bool
deriving DecidableEq, Repr

/-- A compiled path pattern: segments plus the options snapshot taken at
compile time (spec 3, PathPattern). -/
structure PathPattern where
  segs : List Seg
  opts : Options
deriving DecidableEq, Repr

/-- Pattern compilation failure, raised at registration time (spec 4.1,
7). -/
inductive PatternError
  | emptySegment
  | emptyParamName (s : String)
deriving DecidableEq, Repr

/-- Modelled from the spec: compile one registration segment (missing from
`src`: PathMatcher compilation, spec 4.1).  `":name"` is a placeholder; a
bare `":"` has no parameter name and an empty segment is malformed, both
are `PatternError`s. -/
def parseSeg (s : String) : Except PatternError Seg :=
  match s.data with
  | [] => .error .emptySegment
  | ':' :: [] => .error (.emptyParamName s)
  | ':' :: rest => .ok (.prm ⟨rest⟩)
  | _ => .ok (.lit s)

/-- Modelled from the spec: compile a registration path (list of segment
texts) under an options snapshot into a `PathPattern`, or fail with a
`PatternError` before any Layer is created (spec 4.1 failure mode). -/
def compilePattern (opts : Options) (ss : List String) : Except PatternError PathPattern :=
  (ss.mapM parseSeg).map (fun segs => ⟨segs, opts⟩)

/-- Segment comparison: exact unless case-insensitive (spec 4.1). -/
def eqSeg (caseSensitive : Bool) (a b : String) : Bool :=
  if caseSensitive then a = b else a.toLower = b.toLower

/-- Modelled from the spec: full-path matching of a compiled pattern
(missing from `src`: the PathMatcher, spec 4.1).  On success yields the
named bindings in pattern order. -/
def matchSegs (cs : Bool) : List Seg → Path → Option Params
  | [], [] => some []
  | .lit s :: ps, x :: xs => if eqSeg cs s x then matchSegs cs ps xs else none
  | .prm n :: ps, x :: xs => (matchSegs cs ps xs).map (fun bs => (n, x) :: bs)
  | _, _ => none

/-- Modelled from the spec: mount-prefix matching (missing from `src`:
spec 4.1).  The pattern must match a path prefix ending on a segment
boundary; the unmatched suffix is returned as the remainder seen by the
mounted sub-Router. -/
def matchMount (cs : Bool) : List Seg → Path → Option (Params × Path)
  | [], xs => some ([], xs)
  | .lit s :: ps, x :: xs => if eqSeg cs s x then matchMount cs ps xs else none
  | .prm n :: ps, x :: xs => (matchMount cs ps xs).map (fun pr => ((n, x) :: pr.1, pr.2))
  | _ :: _, [] => none

/-- A parameter-preprocessing handler registered with `param(name, h)`
(`index.d.ts` lines 27-29, 59): identified by `hid`; `perr = none` means
it calls `next()`, `perr = some e` means it signals failure `next(e)`. -/
structure PHandler where
  hid : Nat
  perr : Option Nat
deriving DecidableEq, Repr

/-- The ParamRegistry: parameter name to ordered handler list (spec 3). -/
abbrev PReg := List (String × List PHandler)

/-- Handlers registered for a parameter name (empty when absent). -/
def lookupP (reg : PReg) (n : String) : List PHandler :=
  match reg.find? (fun p => p.1 = n) with
  | some p => p.2
  | none => []

/-- A Route: per-method handler sequences plus the all-methods sequence
evaluated before them (spec 3, 4.2). -/
structure Route where
  methods : List (String × List Handler)
  allH : List Handler
deriving DecidableEq, Repr

/-- Handlers a Route runs for an incoming method: the all-methods sequence,
then the method's own sequence; `HEAD` falls back to `GET` handlers when no
`HEAD`-specific handler was registered (spec 4.2). -/
def Route.handlersFor (rt : Route) (m : String) : List Handler :=
  rt.allH ++
    match rt.methods.find? (fun p => p.1 = m) with
    | some p => p.2
    | none =>
      if m = "HEAD" then
        match rt.methods.find? (fun p => p.1 = "GET") with
        | some p => p.2
        | none => []
      else []

/-- Append handlers to a Route's sequence for one method, creating the
entry on first registration (spec 4.2: registration appends). -/
def Route.addMethod (rt : Route) (m : String) (hs : List Handler) : Route :=
  if rt.methods.any (fun p => p.1 = m) then
    { rt with methods := rt.methods.map (fun p => if p.1 = m then (p.1, p.2 ++ hs) else p) }
  else
    { rt with methods := rt.methods ++ [(m, hs)] }

/-- Append handlers to a Route's all-methods sequence (spec 4.2). -/
def Route.addAll (rt : Route) (hs : List Handler) : Route :=
  { rt with allH := rt.allH ++ hs }

/-- The payload of a non-mount Layer: a single handler, or an embedded
Route (spec 3, Layer). -/
inductive BItem
  | single (h : Handler)
  | routeIt (rt : Route)
deriving DecidableEq, Repr

/-- A non-mount Layer: an optional compiled pattern (`none` = matches every
path, catch-all middleware), an optional accepted-method set, and the
payload (spec 3, Layer). -/
structure BLayer where
  pattern : Option PathPattern
  methods : Option (List String)
  item : BItem
deriving DecidableEq, Repr

/-- Does this Layer accept the request method?  Plain middleware uses the
optional method filter; a Route Layer accepts exactly the methods its Route
has handlers for, so a Route with nothing for the method falls through like
a non-match (spec 4.2, 4.4 Scanning). -/
def BLayer.accepts (L : BLayer) (m : String) : Bool :=
  match L.item with
  | .single _ =>
    match L.methods with
    | none => true
    | some ms => ms.contains m
  | .routeIt rt => !(rt.handlersFor m).isEmpty

/-- Match a non-mount Layer against method and full path, yielding its
parameter bindings (spec 4.4 Scanning). -/
def matchB (L : BLayer) (m : String) (path : Path) : Option Params :=
  if L.accepts m then
    match L.pattern with
    | none => some []
    | some pat => matchSegs pat.opts.caseSensitive pat.segs path
  else none

/-- A mounted sub-Router: its own Layers, ParamRegistry and options
(spec 3, Router; kept one level deep, which the claims need). -/
structure SubRouter where
  layers : List BLayer
  preg : PReg
  opts : Options
deriving DecidableEq, Repr

/-- A top-level Layer: plain (handler or Route) or a mount point whose
pattern is matched as a prefix (spec 3, Layer; `index.d.ts` line 280
`use(mountPoint, ...)`). -/
inductive Layer
  | basic (b : BLayer)
  | mount (pattern : Option PathPattern) (sub : SubRouter)
deriving DecidableEq, Repr

/-- A Router: ordered Layers, a ParamRegistry, and the matching options
fixed at construction (spec 3, Router; `index.d.ts` lines 31-284). -/
structure Router where
  layers : List Layer
  preg : PReg
  opts : Options
deriving DecidableEq, Repr

/-- A fresh Router with the given options (`createRouter()` plus the
options object of `src/test/router-options.ts`). -/
def Router.empty (o : Options) : Router := ⟨[], [], o⟩

/-- Terminal result of one traversal (spec 4.4 Terminal): scan exhausted
with no error (not found), exhausted while erroring, or the response was
completed by a handler. -/
inductive Terminal
  | notFound
  | errored (e : Nat)
  | completed
deriving DecidableEq, Repr

/-- Observable event of a traversal: a handler invocation (recording the
handler id, its kind, the error slot at invocation, the path it observed
and the parameter bag it observed), or a param-hook invocation (name,
handler id, bound value). -/
inductive Ev
  | hevent (hid : Nat) (k : HKind) (errAt : Option Nat) (path : Path) (prms : Params)
  | pevent (n : String) (hid : Nat) (v : String)
deriving DecidableEq, Repr

/-- Result of running the param hooks of one traversal step. -/
structure PRes where
  evs : List Ev
  seen : List String
  err : Option Nat
deriving DecidableEq, Repr

/-- Result of running a handler chain. -/
structure CRes where
  evs : List Ev
  err : Option Nat
  complete : Bool
deriving DecidableEq, Repr

/-- Result of a Layer-sequence walk. -/
structure BRes where
  evs : List Ev
  err : Option Nat
  complete : Bool
  seen : List String
deriving DecidableEq, Repr

/-- Modelled from the spec: run the registered handlers of one parameter
name in registration order (missing from `src`: ParamRegistry dispatch,
spec 4.4 Parameter resolution).  Each must call its `next` before the next
one runs; a failure aborts the list. -/
def runPHs (n : String) (v : String) : List PHandler → List Ev × Option Nat
  | [] => ([], none)
  | ph :: rest =>
    match ph.perr with
    | none =>
      let r := runPHs n v rest
      (Ev.pevent n ph.hid v :: r.1, r.2)
    | some e => ([Ev.pevent n ph.hid v], some e)

/-- Modelled from the spec: resolve the newly bound parameters of a matched
Layer (missing from `src`: spec 4.4 Parameter resolution).  Every bound
name not yet processed at this Router for this request runs its registry
handlers once and is recorded as seen; a failing param handler aborts the
scan into the Erroring state. -/
def runParams (reg : PReg) : Params → List String → PRes
  | [], seen => ⟨[], seen, none⟩
  | (n, v) :: rest, seen =>
    if n ∈ seen then runParams reg rest seen
    else
      let r := runPHs n v (lookupP reg n)
      match r.2 with
      | none =>
        let r2 := runParams reg rest (n :: seen)
        ⟨r.1 ++ r2.evs, r2.seen, r2.err⟩
      | some e => ⟨r.1, n :: seen, some e⟩

/-- Modelled from the spec: run a handler sequence under the continuation
protocol (missing from `src`: the Dispatcher, spec 4.4).  While the error
slot is empty (Scanning) error-kind handlers are skipped; while it is
non-empty (Erroring) normal-kind handlers are skipped; a completed response
stops every further invocation. -/
def runChain (path : Path) (prms : Params) : List Handler → Option Nat → Bool → CRes
  | [], err, c => ⟨[], err, c⟩
  | h :: rest, err, c =>
    if c then ⟨[], err, true⟩
    else
      match err with
      | none =>
        if hkind h = .error then runChain path prms rest none false
        else
          let a := applyAct h.act
          let r := runChain path prms rest a.1 a.2
          ⟨Ev.hevent h.hid (hkind h) none path prms :: r.evs, r.err, r.complete⟩
      | some e0 =>
        if hkind h = .normal then runChain path prms rest (some e0) false
        else
          let a := applyAct h.act
          let r := runChain path prms rest a.1 a.2
          ⟨Ev.hevent h.hid (hkind h) (some e0) path prms :: r.evs, r.err, r.complete⟩

/-- Modelled from the spec: evaluate a matched Layer's payload (missing
from `src`: spec 4.2, 4.4 Dispatching): a single handler is a one-element
chain; a Route runs its all-methods sequence then the method's sequence. -/
def runItem (m : String) (path : Path) (prms : Params) (it : BItem) (err : Option Nat) (c : Bool) : CRes :=
  match it with
  | .single h => runChain path prms [h] err c
  | .routeIt rt => runChain path prms (rt.handlersFor m) err c

/-- Modelled from the spec: walk a sub-Router's Layer sequence (missing
from `src`: the Dispatcher control loop, spec 4.4).  `base` is the
parameter bag inherited across the mount boundary; `seen` is this Router's
set of already-processed parameter names for this request. -/
def runBasic (reg : PReg) (m : String) (path : Path) (base : Params) :
    List BLayer → List String → Option Nat → Bool → BRes
  | [], seen, err, c => ⟨[], err, c, seen⟩
  | L :: rest, seen, err, c =>
    if c then ⟨[], err, true, seen⟩
    else
      match matchB L m path with
      | none => runBasic reg m path base rest seen err c
      | some bps =>
        match err with
        | none =>
          let p := runParams reg bps seen
          match p.err with
          | some e =>
            let r := runBasic reg m path base rest p.seen (some e) false
            ⟨p.evs ++ r.evs, r.err, r.complete, r.seen⟩
          | none =>
            let h := runItem m path (base ++ bps) L.item none false
            let r := runBasic reg m path base rest p.seen h.err h.complete
            ⟨p.evs ++ h.evs ++ r.evs, r.err, r.complete, r.seen⟩
        | some e0 =>
          let h := runItem m path (base ++ bps) L.item (some e0) false
          let r := runBasic reg m path base rest seen h.err h.complete
          ⟨h.evs ++ r.evs, r.err, r.complete, r.seen⟩

/-- Modelled from the spec: walk a top-level Router's Layer sequence
(missing from `src`: the Dispatcher control loop, spec 4.4).  A mount Layer
prefix-matches; the sub-Router observes the remainder as its path, starts
with the mount captures as its inherited bag exactly when its `mergeParams`
option is set, and its exhaustion returns control to this walk as the inner
`next()` (spec 4.3, 9). -/
def runTop (reg : PReg) (m : String) (path : Path) :
    List Layer → List String → Option Nat → Bool → BRes
  | [], seen, err, c => ⟨[], err, c, seen⟩
  | .basic B :: rest, seen, err, c =>
    if c then ⟨[], err, true, seen⟩
    else
      match matchB B m path with
      | none => runTop reg m path rest seen err c
      | some bps =>
        match err with
        | none =>
          let p := runParams reg bps seen
          match p.err with
          | some e =>
            let r := runTop reg m path rest p.seen (some e) false
            ⟨p.evs ++ r.evs, r.err, r.complete, r.seen⟩
          | none =>
            let h := runItem m path bps B.item none false
            let r := runTop reg m path rest p.seen h.err h.complete
            ⟨p.evs ++ h.evs ++ r.evs, r.err, r.complete, r.seen⟩
        | some e0 =>
          let h := runItem m path bps B.item (some e0) false
          let r := runTop reg m path rest seen h.err h.complete
          ⟨h.evs ++ r.evs, r.err, r.complete, r.seen⟩
  | .mount pat sub :: rest, seen, err, c =>
    if c then ⟨[], err, true, seen⟩
    else
      match (match pat with
             | none => some (([] : Params), path)
             | some pp => matchMount pp.opts.caseSensitive pp.segs path) with
      | none => runTop reg m path rest seen err c
      | some pr =>
        let base := if sub.opts.mergeParams then pr.1 else []
        match err with
        | none =>
          let p := runParams reg pr.1 seen
          match p.err with
          | some e =>
            let r := runTop reg m path rest p.seen (some e) false
            ⟨p.evs ++ r.evs, r.err, r.complete, r.seen⟩
          | none =>
            let s := runBasic sub.preg m pr.2 base sub.layers [] none false
            let r := runTop reg m path rest p.seen s.err s.complete
            ⟨p.evs ++ s.evs ++ r.evs, r.err, r.complete, r.seen⟩
        | some e0 =>
          let s := runBasic sub.preg m pr.2 base sub.layers [] (some e0) false
          let r := runTop reg m path rest seen s.err s.complete
          ⟨s.evs ++ r.evs, r.err, r.complete, r.seen⟩

/-- Modelled from the spec: the dispatch entry point (missing from `src`:
spec 4.4, 6).  Walks the Layer sequence from a fresh per-request state and
maps the final state to the terminal outcome: completed response, error
exhaustion, or not-found exhaustion. -/
def Router.handle (r : Router) (m : String) (path : Path) : List Ev × Terminal :=
  let out := runTop r.preg m path r.layers [] none false
  (out.evs,
    if out.complete then .completed
    else match out.err with
         | none => .notFound
         | some e => .errored e)

/-- A handler argument as accepted by the registration surface: a single
handler or an array of handlers (`index.d.ts` line 25 `HandlerArgument`). -/
inductive HArg
  | one (h : Handler)
  | many (hs : List Handler)
deriving DecidableEq, Repr

/-- Flattening of nested handler arguments at registration time, preserving
order (spec 4.3, 9). -/
def flattenArgs : List HArg → List Handler
  | [] => []
  | .one h :: rest => h :: flattenArgs rest
  | .many hs :: rest => hs ++ flattenArgs rest

/-- Registration `use(...handlers)` with no path restriction: the flattened
handlers become sequential catch-all Layers in order (`index.d.ts` line
279; spec 4.3, 4.4). -/
def Router.use (r : Router) (args : List HArg) : Router :=
  { r with layers := r.layers ++ (flattenArgs args).map (fun h => .basic ⟨none, none, .single h⟩) }

/-- Registration `use(path, ...handlers)` with a scoping pattern: compiles
the pattern first and registers no Layer when compilation fails
(`index.d.ts` line 280; spec 4.1 failure mode, 4.3). -/
def Router.useAt (r : Router) (p : List String) (args : List HArg) : Except PatternError Router :=
  match compilePattern r.opts p with
  | .error e => .error e
  | .ok pat =>
    .ok { r with layers := r.layers ++ (flattenArgs args).map (fun h => .basic ⟨some pat, none, .single h⟩) }

/-- Registration `use(mountPoint, subRouter)`: compiles the mount-prefix
pattern and adds a mount Layer (`index.d.ts` line 280; spec 4.3). -/
def Router.useMount (r : Router) (p : List String) (sub : SubRouter) : Except PatternError Router :=
  match compilePattern r.opts p with
  | .error e => .error e
  | .ok pat => .ok { r with layers := r.layers ++ [.mount (some pat) sub] }

/-- Append a param handler to the registry entry for a name, creating the
entry when absent (spec 4.3 `param`). -/
def addParamEntry : PReg → String → PHandler → PReg
  | [], n, ph => [(n, [ph])]
  | (k, hs) :: rest, n, ph =>
    if k = n then (k, hs ++ [ph]) :: rest else (k, hs) :: addParamEntry rest n ph

/-- Registration `param(name, handler)` (`index.d.ts` line 59; spec 4.3). -/
def Router.param (r : Router) (n : String) (ph : PHandler) : Router :=
  { r with preg := addParamEntry r.preg n ph }

/-- Does this Layer carry a Route registered for exactly this pattern
(spec 4.3: verb registrations on the same path reuse one Layer/Route)? -/
def sameRoutePat (L : Layer) (pat : PathPattern) : Bool :=
  match L with
  | .basic ⟨some pp, _, .routeIt _⟩ => pp = pat
  | _ => false

/-- Extend a Route-carrying Layer in place with handlers for a method
(spec 4.3). -/
def extendLayer (L : Layer) (m : String) (hs : List Handler) : Layer :=
  match L with
  | .basic ⟨pp, ms, .routeIt rt⟩ => .basic ⟨pp, ms, .routeIt (rt.addMethod m hs)⟩
  | other => other

/-- The fresh Route Layer created by the first verb registration for a
path (spec 4.3). -/
def freshRouteLayer (pat : PathPattern) (m : String) (hs : List Handler) : Layer :=
  .basic ⟨some pat, none, .routeIt ⟨[(m, hs)], []⟩⟩

/-- Modelled from the spec: verb registration reuses the existing Route
Layer for the same pattern, lazily creating it on first use (missing from
`src`: spec 4.3). -/
def insertVerb (pat : PathPattern) (m : String) (hs : List Handler) : List Layer → List Layer
  | [] => [freshRouteLayer pat m hs]
  | L :: rest =>
    if sameRoutePat L pat then extendLayer L m hs :: rest
    else L :: insertVerb pat m hs rest

/-- Registration via an HTTP-verb method (`get`, `post`, ..., `index.d.ts`
lines 66-277): compile the pattern, then append the flattened handlers into
the Route for that path (spec 4.3). -/
def Router.addVerb (r : Router) (p : List String) (m : String) (args : List HArg) : Except PatternError Router :=
  match compilePattern r.opts p with
  | .error e => .error e
  | .ok pat => .ok { r with layers := insertVerb pat m (flattenArgs args) r.layers }

/-- Extend a Route-carrying Layer in place with all-methods handlers
(spec 4.2, 4.3). -/
def extendLayerAll (L : Layer) (hs : List Handler) : Layer :=
  match L with
  | .basic ⟨pp, ms, .routeIt rt⟩ => .basic ⟨pp, ms, .routeIt (rt.addAll hs)⟩
  | other => other

/-- Modelled from the spec: `all` registration reuses the existing Route
Layer for the same pattern (missing from `src`: spec 4.3). -/
def insertAll (pat : PathPattern) (hs : List Handler) : List Layer → List Layer
  | [] => [.basic ⟨some pat, none, .routeIt ⟨[], hs⟩⟩]
  | L :: rest =>
    if sameRoutePat L pat then extendLayerAll L hs :: rest
    else L :: insertAll pat hs rest

/-- Registration `all(path, ...handlers)` (`index.d.ts` line 66): appends
to the Route's all-methods sequence (spec 4.2, 4.3). -/
def Router.all (r : Router) (p : List String) (args : List HArg) : Except PatternError Router :=
  match compilePattern r.opts p with
  | .error e => .error e
  | .ok pat => .ok { r with layers := insertAll pat (flattenArgs args) r.layers }

/-- Modelled from the spec: `route(prefix)` creates the Route's Layer for
the path when absent and returns the updated Router (missing from `src`:
`index.d.ts` line 283, spec 4.3), failing with a `PatternError` on a bad
pattern. -/
def Router.route (r : Router) (p : List String) : Except PatternError Router :=
  match compilePattern r.opts p with
  | .error e => .error e
  | .ok pat => .ok { r with layers := insertAll pat [] r.layers }

/-- All handlers a Layer payload can ever invoke: the single handler, or
every handler held by the Route. -/
def BItem.handlers : BItem → List Handler
  | .single h => [h]
  | .routeIt rt => rt.allH ++ (rt.methods.map Prod.snd).flatten

/-- All handlers held by a sequence of non-mount Layers. -/
def handlersOfB : List BLayer → List Handler
  | [] => []
  | L :: ls => L.item.handlers ++ handlersOfB ls

/-- All handlers held by a sequence of top-level Layers, including those of
mounted sub-Routers. -/
def layersHandlers : List Layer → List Handler
  | [] => []
  | .basic B :: ls => B.item.handlers ++ layersHandlers ls
  | .mount _ sub :: ls => handlersOfB sub.layers ++ layersHandlers ls

/-- All handlers registered anywhere on a Router. -/
def Router.allHandlers (r : Router) : List Handler := layersHandlers r.layers

/-- The handlers a Route selects for a method are among the Route's
registered handlers. -/
theorem mem_handlersFor {rt : Route} {m : String} {h : Handler}
    (hmem : h ∈ rt.handlersFor m) : h ∈ (BItem.routeIt rt).handlers := by
  unfold Route.handlersFor at hmem
  unfold BItem.handlers
  rcases List.mem_append.mp hmem with ha | hb
  · exact List.mem_append.mpr (Or.inl ha)
  · refine List.mem_append.mpr (Or.inr ?_)
    rcases hf : rt.methods.find? (fun p => p.1 = m) with _ | pr
    · rw [hf] at hb
      by_cases hm : m = "HEAD"
      · rw [if_pos hm] at hb
        rcases hg : rt.methods.find? (fun p => p.1 = "GET") with _ | pg
        · rw [hg] at hb; simp at hb
        · rw [hg] at hb
          exact List.mem_flatten.mpr ⟨pg.2, List.mem_map.mpr ⟨pg, List.mem_of_find?_eq_some hg, rfl⟩, hb⟩
      · rw [if_neg hm] at hb; simp at hb
    · rw [hf] at hb
      exact List.mem_flatten.mpr ⟨pr.2, List.mem_map.mpr ⟨pr, List.mem_of_find?_eq_some hf, rfl⟩, hb⟩

/-- The events of one parameter name's hook list form an order-preserving
prefix of the registered list (shorter only when a hook signals failure). -/
theorem runPHs_shape (n v : String) (hs : List PHandler) :
    ∃ k, (runPHs n v hs).1 = (hs.take k).map (fun ph => Ev.pevent n ph.hid v) := by
  induction hs with
  | nil => exact ⟨0, rfl⟩
  | cons ph rest ih =>
    rcases hph : ph.perr with _ | e
    · obtain ⟨k, hk⟩ := ih
      exact ⟨k + 1, by simp [runPHs, hph, hk]⟩
    · exact ⟨1, by simp [runPHs, hph]⟩

/-- Every event a hook list emits is a param event for its own name and
value. -/
theorem runPHs_events {n v : String} {hs : List PHandler} :
    ∀ ev ∈ (runPHs n v hs).1, ∃ hid, ev = Ev.pevent n hid v := by
  obtain ⟨k, hk⟩ := runPHs_shape n v hs
  rw [hk]
  intro ev hev
  obtain ⟨ph, _, hph⟩ := List.mem_map.mp hev
  exact ⟨ph.hid, hph.symm⟩

/-- Parameter resolution emits only param events. -/
theorem runParams_events (reg : PReg) :
    ∀ (bps : Params) (seen : List String), ∀ ev ∈ (runParams reg bps seen).evs,
      ∃ n hid v, ev = Ev.pevent n hid v := by
  intro bps
  induction bps with
  | nil => intro seen ev hev; simp [runParams] at hev
  | cons nv rest ih =>
    intro seen ev hev
    obtain ⟨n, v⟩ := nv
    by_cases hn : n ∈ seen
    · rw [runParams, if_pos hn] at hev
      exact ih _ _ hev
    · rcases hr : (runPHs n v (lookupP reg n)).2 with _ | e
      · rw [runParams, if_neg hn] at hev
        simp only [hr] at hev
        rcases List.mem_append.mp hev with hl | hrr
        · obtain ⟨hid, hev⟩ := runPHs_events _ hl
          exact ⟨n, hid, v, hev⟩
        · exact ih _ _ hrr
      · rw [runParams, if_neg hn] at hev
        simp only [hr] at hev
        obtain ⟨hid, hev⟩ := runPHs_events _ hev
        exact ⟨n, hid, v, hev⟩

/-- Every event a handler chain emits is a handler event at the chain's
path and parameter bag, recording a handler of the chain with its
registration-time kind, and the kind agrees with the dispatch state at
invocation: normal-kind exactly when the error slot was empty. -/
theorem runChain_events (path : Path) (prms : Params) :
    ∀ (hs : List Handler) (err : Option Nat) (c : Bool),
      ∀ ev ∈ (runChain path prms hs err c).evs,
        ∃ h k ea, h ∈ hs ∧ ev = Ev.hevent h.hid k ea path prms ∧ k = hkind h ∧
          (k = HKind.normal ↔ ea = none) := by
  intro hs
  induction hs with
  | nil => intro err c ev hev; simp [runChain] at hev
  | cons h rest ih =>
    intro err c ev hev
    by_cases hc : c = true
    · simp only [runChain, hc, if_true] at hev; simp at hev
    · cases err with
      | none =>
        by_cases hk : hkind h = HKind.error
        · rw [runChain, if_neg hc] at hev
          simp only [if_pos hk] at hev
          obtain ⟨h', k, ea, hmem, rest'⟩ := ih none false ev hev
          exact ⟨h', k, ea, List.mem_cons_of_mem _ hmem, rest'⟩
        · have hkn : hkind h = HKind.normal := by
            rcases hh : hkind h with _ | _
            · rfl
            · exact absurd hh hk
          simp only [runChain, if_neg hc, if_neg hk] at hev
          rcases List.mem_cons.mp hev with rfl | hev'
          · exact ⟨h, hkind h, none, List.mem_cons_self _ _, rfl, rfl, by simp [hkn]⟩
          · obtain ⟨h', k, ea, hmem, rest'⟩ := ih _ _ ev hev'
            exact ⟨h', k, ea, List.mem_cons_of_mem _ hmem, rest'⟩
      | some e0 =>
        by_cases hk : hkind h = HKind.normal
        · rw [runChain, if_neg hc] at hev
          simp only [if_pos hk] at hev
          obtain ⟨h', k, ea, hmem, rest'⟩ := ih (some e0) false ev hev
          exact ⟨h', k, ea, List.mem_cons_of_mem _ hmem, rest'⟩
        · have hke : hkind h = HKind.error := by
            rcases hh : hkind h with _ | _
            · exact absurd hh hk
            · rfl
          simp only [runChain, if_neg hc, if_neg hk] at hev
          rcases List.mem_cons.mp hev with rfl | hev'
          · exact ⟨h, hkind h, some e0, List.mem_cons_self _ _, rfl, rfl, by simp [hke]⟩
          · obtain ⟨h', k, ea, hmem, rest'⟩ := ih _ _ ev hev'
            exact ⟨h', k, ea, List.mem_cons_of_mem _ hmem, rest'⟩

/-- Same invariant for a Layer payload: emitted handler events carry a
registered handler of the payload, at the given path and bag, with the kind
matching the state at invocation. -/
theorem runItem_events {m : String} {path : Path} {prms : Params}
    {it : BItem} {err : Option Nat} {c : Bool} :
    ∀ ev ∈ (runItem m path prms it err c).evs,
      ∃ h k ea, h ∈ it.handlers ∧ ev = Ev.hevent h.hid k ea path prms ∧ k = hkind h ∧
        (k = HKind.normal ↔ ea = none) := by
  intro ev hev
  cases it with
  | single h =>
    obtain ⟨h', k, ea, hmem, rest⟩ := runChain_events path prms [h] err c ev hev
    refine ⟨h', k, ea, ?_, rest⟩
    simpa [BItem.handlers] using hmem
  | routeIt rt =>
    obtain ⟨h', k, ea, hmem, rest⟩ := runChain_events path prms (rt.handlersFor m) err c ev hev
    exact ⟨h', k, ea, mem_handlersFor hmem, rest⟩

/-- Is this event a param-hook invocation for the given name? -/
def isPFor (n : String) : Ev → Bool
  | .pevent n' _ _ => n' = n
  | _ => false

/-- The param-hook invocations for one name, in trace order. -/
def pfilter (n : String) (evs : List Ev) : List Ev := evs.filter (isPFor n)

theorem pfilter_append (n : String) (a b : List Ev) :
    pfilter n (a ++ b) = pfilter n a ++ pfilter n b := by simp [pfilter]

/-- A hook list's own events all count for its name. -/
theorem runPHs_pfilter_self (n v : String) (hs : List PHandler) :
    pfilter n (runPHs n v hs).1 = (runPHs n v hs).1 := by
  refine List.filter_eq_self.mpr ?_
  intro ev hev
  obtain ⟨hid, rfl⟩ := runPHs_events ev hev
  simp [isPFor]

/-- A hook list emits nothing for another name. -/
theorem runPHs_pfilter_other {n' n : String} (hne : n' ≠ n) (v : String) (hs : List PHandler) :
    pfilter n' (runPHs n v hs).1 = [] := by
  refine List.filter_eq_nil_iff.mpr ?_
  intro ev hev
  obtain ⟨hid, rfl⟩ := runPHs_events ev hev
  simp [isPFor]
  exact fun h => absurd h.symm hne

/-- A handler chain emits no param events. -/
theorem runChain_pfilter (n : String) (path : Path) (prms : Params)
    (hs : List Handler) (err : Option Nat) (c : Bool) :
    pfilter n (runChain path prms hs err c).evs = [] := by
  refine List.filter_eq_nil_iff.mpr ?_
  intro ev hev
  obtain ⟨h, k, ea, _, rfl, _⟩ := runChain_events path prms hs err c ev hev
  simp [isPFor]

/-- A Layer payload emits no param events. -/
theorem runItem_pfilter (n : String) (m : String) (path : Path) (prms : Params)
    (it : BItem) (err : Option Nat) (c : Bool) :
    pfilter n (runItem m path prms it err c).evs = [] := by
  cases it with
  | single h => exact runChain_pfilter n path prms [h] err c
  | routeIt rt => exact runChain_pfilter n path prms (rt.handlersFor m) err c

/-- Parameter resolution only grows the set of processed names. -/
theorem runParams_seen_sub (reg : PReg) :
    ∀ (bps : Params) (seen : List String), seen ⊆ (runParams reg bps seen).seen := by
  intro bps
  induction bps with
  | nil => intro seen; exact fun x hx => hx
  | cons nv rest ih =>
    intro seen
    obtain ⟨n, v⟩ := nv
    by_cases hn : n ∈ seen
    · rw [runParams, if_pos hn]; exact ih seen
    · rcases hr : (runPHs n v (lookupP reg n)).2 with _ | e
      · rw [runParams, if_neg hn]
        simp only [hr]
        exact fun x hx => ih (n :: seen) (List.mem_cons_of_mem _ hx)
      · rw [runParams, if_neg hn]
        simp only [hr]
        exact fun x hx => List.mem_cons_of_mem _ hx

/-- A name already processed at this Router is never processed again:
parameter resolution emits no further events for it. -/
theorem runParams_pfilter_seen (reg : PReg) {n : String} :
    ∀ (bps : Params) (seen : List String), n ∈ seen →
      pfilter n (runParams reg bps seen).evs = [] := by
  intro bps
  induction bps with
  | nil => intro seen _; simp [runParams, pfilter]
  | cons nv rest ih =>
    intro seen hn
    obtain ⟨n', v⟩ := nv
    by_cases hn' : n' ∈ seen
    · rw [runParams, if_pos hn']; exact ih seen hn
    · have hne : n ≠ n' := fun h => hn' (h ▸ hn)
      rcases hr : (runPHs n' v (lookupP reg n')).2 with _ | e
      · rw [runParams, if_neg hn']
        simp only [hr]
        rw [pfilter_append, runPHs_pfilter_other hne, ih (n' :: seen) (List.mem_cons_of_mem _ hn)]
        rfl
      · rw [runParams, if_neg hn']
        simp only [hr]
        exact runPHs_pfilter_other hne v _

/-- For a name not yet processed, parameter resolution either leaves it
unprocessed and emits nothing for it, or processes it exactly once, its
events being an in-order prefix of the registered hook list. -/
theorem runParams_pfilter_split (reg : PReg) {n : String} :
    ∀ (bps : Params) (seen : List String), n ∉ seen →
      (pfilter n (runParams reg bps seen).evs = [] ∧ n ∉ (runParams reg bps seen).seen) ∨
      ((∃ v k, pfilter n (runParams reg bps seen).evs
          = ((lookupP reg n).take k).map (fun ph => Ev.pevent n ph.hid v)) ∧
        n ∈ (runParams reg bps seen).seen) := by
  intro bps
  induction bps with
  | nil => intro seen hn; exact Or.inl ⟨by simp [runParams, pfilter], hn⟩
  | cons nv rest ih =>
    intro seen hn
    obtain ⟨n', v⟩ := nv
    by_cases hn' : n' ∈ seen
    · rw [runParams, if_pos hn']; exact ih seen hn
    · by_cases heq : n' = n
      · subst heq
        rcases hr : (runPHs n' v (lookupP reg n')).2 with _ | e
        · rw [runParams, if_neg hn']
          simp only [hr]
          refine Or.inr ⟨?_, ?_⟩
          · obtain ⟨k, hk⟩ := runPHs_shape n' v (lookupP reg n')
            refine ⟨v, k, ?_⟩
            rw [pfilter_append, runPHs_pfilter_self,
              runParams_pfilter_seen reg rest (n' :: seen) (List.mem_cons_self _ _), hk]
            simp
          · exact runParams_seen_sub reg rest (n' :: seen) (List.mem_cons_self _ _)
        · rw [runParams, if_neg hn']
          simp only [hr]
          refine Or.inr ⟨?_, List.mem_cons_self _ _⟩
          obtain ⟨k, hk⟩ := runPHs_shape n' v (lookupP reg n')
          exact ⟨v, k, by rw [runPHs_pfilter_self, hk]⟩
      · have hne : n ≠ n' := fun h => heq h.symm
        rcases hr : (runPHs n' v (lookupP reg n')).2 with _ | e
        · rw [runParams, if_neg hn']
          simp only [hr]
          have hn2 : n ∉ n' :: seen := by
            intro hmem
            rcases List.mem_cons.mp hmem with h | h
            · exact hne h
            · exact hn h
          rcases ih (n' :: seen) hn2 with ⟨hfa, hns⟩ | ⟨⟨v', k, hk⟩, hns⟩
          · exact Or.inl ⟨by rw [pfilter_append, runPHs_pfilter_other hne, hfa]; rfl, hns⟩
          · exact Or.inr ⟨⟨v', k, by rw [pfilter_append, runPHs_pfilter_other hne, hk]; rfl⟩, hns⟩
        · rw [runParams, if_neg hn']
          simp only [hr]
          refine Or.inl ⟨runPHs_pfilter_other hne v _, ?_⟩
          intro hmem
          rcases List.mem_cons.mp hmem with h | h
          · exact hne h
          · exact hn h

/-- A Layer-sequence walk only grows the set of processed names. -/
theorem runBasic_seen_sub (reg : PReg) (m : String) (path : Path) (base : Params) :
    ∀ (ls : List BLayer) (seen : List String) (err : Option Nat) (c : Bool),
      seen ⊆ (runBasic reg m path base ls seen err c).seen := by
  intro ls
  induction ls with
  | nil => intro seen err c; exact fun x hx => hx
  | cons L rest ih =>
    intro seen err c
    by_cases hc : c = true
    · rw [runBasic, if_pos hc]; exact fun x hx => hx
    · rcases hm : matchB L m path with _ | bps
      · rw [runBasic, if_neg hc]; simp only [hm]; exact ih seen err c
      · cases err with
        | none =>
          rw [runBasic, if_neg hc]
          simp only [hm]
          rcases hp : (runParams reg bps seen).err with _ | e
          · simp only [hp]
            exact fun x hx => ih _ _ _ (runParams_seen_sub reg bps seen hx)
          · simp only [hp]
            exact fun x hx => ih _ _ _ (runParams_seen_sub reg bps seen hx)
        | some e0 =>
          rw [runBasic, if_neg hc]
          simp only [hm]
          exact fun x hx => ih _ _ _ hx

/-- Once a name is processed at this Router, the rest of the walk emits no
further param events for it. -/
theorem runBasic_pfilter_seen (reg : PReg) (m : String) (path : Path) (base : Params) {n : String} :
    ∀ (ls : List BLayer) (seen : List String) (err : Option Nat) (c : Bool), n ∈ seen →
      pfilter n (runBasic reg m path base ls seen err c).evs = [] := by
  intro ls
  induction ls with
  | nil => intro seen err c _; simp [runBasic, pfilter]
  | cons L rest ih =>
    intro seen err c hn
    by_cases hc : c = true
    · rw [runBasic, if_pos hc]; simp [pfilter]
    · rcases hm : matchB L m path with _ | bps
      · rw [runBasic, if_neg hc]; simp only [hm]; exact ih seen err c hn
      · cases err with
        | none =>
          rw [runBasic, if_neg hc]
          simp only [hm]
          rcases hp : (runParams reg bps seen).err with _ | e
          · simp only [hp]
            rw [pfilter_append, pfilter_append, runParams_pfilter_seen reg bps seen hn,
              runItem_pfilter, ih _ _ _ (runParams_seen_sub reg bps seen hn)]
            rfl
          · simp only [hp]
            rw [pfilter_append, runParams_pfilter_seen reg bps seen hn,
              ih _ _ _ (runParams_seen_sub reg bps seen hn)]
            rfl
        | some e0 =>
          rw [runBasic, if_neg hc]
          simp only [hm]
          rw [pfilter_append, runItem_pfilter, ih _ _ _ hn]
          rfl

/-- Over a whole walk, the param events for any name form an in-order
prefix of one pass over that name's registered hook list: the hooks of a
(Router, name) pair run at most once per request, in registration order. -/
theorem runBasic_pfilter (reg : PReg) (m : String) (path : Path) (base : Params) {n : String} :
    ∀ (ls : List BLayer) (seen : List String) (err : Option Nat) (c : Bool), n ∉ seen →
      ∃ v k, pfilter n (runBasic reg m path base ls seen err c).evs
        = ((lookupP reg n).take k).map (fun ph => Ev.pevent n ph.hid v) := by
  intro ls
  induction ls with
  | nil => intro seen err c _; exact ⟨"", 0, by simp [runBasic, pfilter]⟩
  | cons L rest ih =>
    intro seen err c hn
    by_cases hc : c = true
    · rw [runBasic, if_pos hc]; exact ⟨"", 0, by simp [pfilter]⟩
    · rcases hm : matchB L m path with _ | bps
      · rw [runBasic, if_neg hc]; simp only [hm]; exact ih seen err c hn
      · cases err with
        | none =>
          rw [runBasic, if_neg hc]
          simp only [hm]
          rcases runParams_pfilter_split reg bps seen hn with ⟨hfa, hns⟩ | ⟨⟨v, k, hk⟩, hns⟩
          · rcases hp : (runParams reg bps seen).err with _ | e
            · simp only [hp]
              obtain ⟨v, k, hrest⟩ := ih _ _ _ hns
              refine ⟨v, k, ?_⟩
              rw [pfilter_append, pfilter_append, hfa, runItem_pfilter, hrest]
              rfl
            · simp only [hp]
              obtain ⟨v, k, hrest⟩ := ih _ _ _ hns
              exact ⟨v, k, by rw [pfilter_append, hfa, hrest]; rfl⟩
          · rcases hp : (runParams reg bps seen).err with _ | e
            · simp only [hp]
              refine ⟨v, k, ?_⟩
              rw [pfilter_append, pfilter_append, hk, runItem_pfilter,
                runBasic_pfilter_seen reg m path base rest _ _ _ hns]
              simp
            · simp only [hp]
              refine ⟨v, k, ?_⟩
              rw [pfilter_append, hk, runBasic_pfilter_seen reg m path base rest _ _ _ hns]
              simp
        | some e0 =>
          rw [runBasic, if_neg hc]
          simp only [hm]
          obtain ⟨v, k, hrest⟩ := ih seen _ _ hn
          refine ⟨v, k, ?_⟩
          rw [pfilter_append, runItem_pfilter, hrest]
          rfl

/-- Replace a synchronous throw by the equivalent explicit `next(error)`
call (spec 7: the Dispatcher catches a throw at the point of invocation and
treats it identically). -/
def HAct.detox : HAct → HAct
  | .throwSync e => .callNextError e
  | a => a

/-- A handler with its synchronous throw rewritten to `next(error)`. -/
def Handler.detox (h : Handler) : Handler := ⟨h.hid, h.arity, h.act.detox⟩

/-- Detox every handler of a Route. -/
def Route.detox (rt : Route) : Route :=
  ⟨rt.methods.map (fun p => (p.1, p.2.map Handler.detox)), rt.allH.map Handler.detox⟩

/-- Detox a Layer payload. -/
def BItem.detox : BItem → BItem
  | .single h => .single h.detox
  | .routeIt rt => .routeIt rt.detox

/-- Detox a non-mount Layer. -/
def BLayer.detox (L : BLayer) : BLayer := ⟨L.pattern, L.methods, L.item.detox⟩

/-- Detox a sub-Router. -/
def SubRouter.detox (s : SubRouter) : SubRouter := ⟨s.layers.map BLayer.detox, s.preg, s.opts⟩

/-- Detox a top-level Layer. -/
def Layer.detox : Layer → Layer
  | .basic B => .basic B.detox
  | .mount pat sub => .mount pat sub.detox

/-- Detox every handler registered anywhere on a Router. -/
def Router.detox (r : Router) : Router := ⟨r.layers.map Layer.detox, r.preg, r.opts⟩

theorem applyAct_detox (a : HAct) : applyAct a.detox = applyAct a := by
  cases a <;> rfl

theorem hkind_detox (h : Handler) : hkind h.detox = hkind h := rfl

theorem find?_methods_detox (ms : List (String × List Handler)) (m : String) :
    (ms.map (fun p => (p.1, p.2.map Handler.detox))).find? (fun p => p.1 = m)
      = (ms.find? (fun p => p.1 = m)).map (fun p => (p.1, p.2.map Handler.detox)) := by
  induction ms with
  | nil => rfl
  | cons p rest ih =>
    by_cases hp : p.1 = m
    · simp [List.find?, hp]
    · simp [List.find?, hp, ih]

theorem handlersFor_detox (rt : Route) (m : String) :
    rt.detox.handlersFor m = (rt.handlersFor m).map Handler.detox := by
  unfold Route.handlersFor
  simp only [Route.detox, find?_methods_detox, List.map_append]
  congr 1
  rcases hf : rt.methods.find? (fun p => p.1 = m) with _ | pr
  · simp only [hf, Option.map]
    by_cases hm : m = "HEAD"
    · simp only [if_pos hm]
      rcases hg : rt.methods.find? (fun p => p.1 = "GET") with _ | pg
      · simp [hg]
      · simp [hg]
    · simp [if_neg hm]
  · simp [hf]

theorem accepts_detox (L : BLayer) (m : String) :
    L.detox.accepts m = L.accepts m := by
  rcases L with ⟨pat, ms, it⟩
  cases it with
  | single h => rfl
  | routeIt rt =>
    simp only [BLayer.detox, BItem.detox, BLayer.accepts, handlersFor_detox]
    rcases hl : rt.handlersFor m with _ | ⟨h, rest⟩ <;> simp [hl]

theorem matchB_detox (L : BLayer) (m : String) (path : Path) :
    matchB L.detox m path = matchB L m path := by
  unfold matchB
  rw [accepts_detox]
  rfl

theorem runChain_detox (path : Path) (prms : Params) :
    ∀ (hs : List Handler) (err : Option Nat) (c : Bool),
      runChain path prms (hs.map Handler.detox) err c = runChain path prms hs err c := by
  intro hs
  induction hs with
  | nil => intro err c; rfl
  | cons h rest ih =>
    intro err c
    by_cases hc : c = true
    · simp only [List.map_cons, runChain, if_pos hc]
    · cases err with
      | none =>
        by_cases hk : hkind h = HKind.error
        · have hk' : hkind h.detox = HKind.error := by rw [hkind_detox]; exact hk
          simp only [List.map_cons, runChain, if_neg hc, if_pos hk, if_pos hk']
          exact ih none false
        · have hk' : ¬hkind h.detox = HKind.error := by rw [hkind_detox]; exact hk
          simp only [List.map_cons, runChain, if_neg hc, if_neg hk, if_neg hk']
          show ({ evs := _, err := _, complete := _ } : CRes) = _
          have hact : applyAct h.detox.act = applyAct h.act := applyAct_detox h.act
          rw [show h.detox.act = h.act.detox from rfl, applyAct_detox, hkind_detox,
            show h.detox.hid = h.hid from rfl, ih _ _]
      | some e0 =>
        by_cases hk : hkind h = HKind.normal
        · have hk' : hkind h.detox = HKind.normal := by rw [hkind_detox]; exact hk
          simp only [List.map_cons, runChain, if_neg hc, if_pos hk, if_pos hk']
          exact ih (some e0) false
        · have hk' : ¬hkind h.detox = HKind.normal := by rw [hkind_detox]; exact hk
          simp only [List.map_cons, runChain, if_neg hc, if_neg hk, if_neg hk']
          rw [show h.detox.act = h.act.detox from rfl, applyAct_detox, hkind_detox,
            show h.detox.hid = h.hid from rfl, ih _ _]

theorem runItem_detox (m : String) (path : Path) (prms : Params)
    (it : BItem) (err : Option Nat) (c : Bool) :
    runItem m path prms it.detox err c = runItem m path prms it err c := by
  cases it with
  | single h =>
    show runChain path prms [h.detox] err c = runChain path prms [h] err c
    exact runChain_detox path prms [h] err c
  | routeIt rt =>
    show runChain path prms (rt.detox.handlersFor m) err c = _
    rw [handlersFor_detox]
    exact runChain_detox path prms (rt.handlersFor m) err c

theorem runBasic_detox (reg : PReg) (m : String) (path : Path) (base : Params) :
    ∀ (ls : List BLayer) (seen : List String) (err : Option Nat) (c : Bool),
      runBasic reg m path base (ls.map BLayer.detox) seen err c
        = runBasic reg m path base ls seen err c := by
  intro ls
  induction ls with
  | nil => intro seen err c; rfl
  | cons L rest ih =>
    intro seen err c
    by_cases hc : c = true
    · simp only [List.map_cons, runBasic, if_pos hc]
    · simp only [List.map_cons, runBasic, if_neg hc, matchB_detox]
      rcases hm : matchB L m path with _ | bps
      · exact ih seen err c
      · cases err with
        | none =>
          rcases hp : (runParams reg bps seen).err with _ | e
          · simp only [hp, show L.detox.item = L.item.detox from rfl, runItem_detox, ih]
          · simp only [hp, ih]
        | some e0 =>
          simp only [show L.detox.item = L.item.detox from rfl, runItem_detox, ih]

theorem runTop_detox (reg : PReg) (m : String) (path : Path) :
    ∀ (ls : List Layer) (seen : List String) (err : Option Nat) (c : Bool),
      runTop reg m path (ls.map Layer.detox) seen err c
        = runTop reg m path ls seen err c := by
  intro ls
  induction ls with
  | nil => intro seen err c; rfl
  | cons L rest ih =>
    intro seen err c
    cases L with
    | basic B =>
      by_cases hc : c = true
      · simp only [List.map_cons, Layer.detox, runTop, if_pos hc]
      · simp only [List.map_cons, Layer.detox, runTop, if_neg hc, matchB_detox]
        rcases hm : matchB B m path with _ | bps
        · exact ih seen err c
        · cases err with
          | none =>
            rcases hp : (runParams reg bps seen).err with _ | e
            · simp only [hp, show B.detox.item = B.item.detox from rfl, runItem_detox, ih]
            · simp only [hp, ih]
          | some e0 =>
            simp only [show B.detox.item = B.item.detox from rfl, runItem_detox, ih]
    | mount pat sub =>
      by_cases hc : c = true
      · simp only [List.map_cons, Layer.detox, runTop, if_pos hc]
      · cases pat with
        | none =>
          simp only [List.map_cons, Layer.detox, runTop, if_neg hc, SubRouter.detox,
            runBasic_detox, ih]
        | some pp =>
          simp only [List.map_cons, Layer.detox, runTop, if_neg hc]
          rcases hpm : matchMount pp.opts.caseSensitive pp.segs path with _ | pr
          · simp only [hpm]
            exact ih seen err c
          · simp only [hpm, SubRouter.detox, runBasic_detox, ih]

theorem handle_detox (r : Router) (m : String) (path : Path) :
    r.detox.handle m path = r.handle m path := by
  unfold Router.handle Router.detox
  simp only [runTop_detox]

/-- Master invariant of a sub-Router walk: every event is a param event or
a handler event at the walk's path, whose bag extends the inherited base
bag, whose kind is the registration-time kind of a handler registered in
the walked Layers, and whose kind is normal exactly when the error slot was
empty at invocation. -/
theorem runBasic_events (reg : PReg) (m : String) (path : Path) (base : Params) :
    ∀ (ls : List BLayer) (seen : List String) (err : Option Nat) (c : Bool),
      ∀ ev ∈ (runBasic reg m path base ls seen err c).evs,
        (∃ n hid v, ev = Ev.pevent n hid v) ∨
        (∃ hid k ea bps, ev = Ev.hevent hid k ea path (base ++ bps) ∧
          (k = HKind.normal ↔ ea = none) ∧
          ∃ h, h ∈ handlersOfB ls ∧ hid = h.hid ∧ k = hkind h) := by
  intro ls
  induction ls with
  | nil => intro seen err c ev hev; simp [runBasic] at hev
  | cons L rest ih =>
    intro seen err c ev hev
    have liftrest : ∀ {x : Handler}, x ∈ handlersOfB rest → x ∈ handlersOfB (L :: rest) := by
      intro x hx
      show x ∈ L.item.handlers ++ handlersOfB rest
      exact List.mem_append.mpr (Or.inr hx)
    have lifthere : ∀ {x : Handler}, x ∈ L.item.handlers → x ∈ handlersOfB (L :: rest) := by
      intro x hx
      show x ∈ L.item.handlers ++ handlersOfB rest
      exact List.mem_append.mpr (Or.inl hx)
    by_cases hc : c = true
    · rw [runBasic, if_pos hc] at hev; simp at hev
    · rcases hm : matchB L m path with _ | bps
      · rw [runBasic, if_neg hc] at hev
        simp only [hm] at hev
        rcases ih seen err c ev hev with hl | ⟨hid, k, ea, bps, hev', hiff, h, hmem, hrest⟩
        · exact Or.inl hl
        · exact Or.inr ⟨hid, k, ea, bps, hev', hiff, h, liftrest hmem, hrest⟩
      · cases err with
        | none =>
          rw [runBasic, if_neg hc] at hev
          simp only [hm] at hev
          rcases hp : (runParams reg bps seen).err with _ | e
          · simp only [hp] at hev
            rcases List.mem_append.mp hev with hev1 | hev2
            · rcases List.mem_append.mp hev1 with hevp | hevi
              · exact Or.inl (runParams_events reg bps seen ev hevp)
              · obtain ⟨h', k, ea, hmem, hev', hk, hiff⟩ := runItem_events ev hevi
                exact Or.inr ⟨h'.hid, k, ea, bps, hev', hiff, h', lifthere hmem, rfl, hk⟩
            · rcases ih _ _ _ ev hev2 with hl | ⟨hid, k, ea, bps', hev', hiff, h, hmem, hrest⟩
              · exact Or.inl hl
              · exact Or.inr ⟨hid, k, ea, bps', hev', hiff, h, liftrest hmem, hrest⟩
          · simp only [hp] at hev
            rcases List.mem_append.mp hev with hevp | hev2
            · exact Or.inl (runParams_events reg bps seen ev hevp)
            · rcases ih _ _ _ ev hev2 with hl | ⟨hid, k, ea, bps', hev', hiff, h, hmem, hrest⟩
              · exact Or.inl hl
              · exact Or.inr ⟨hid, k, ea, bps', hev', hiff, h, liftrest hmem, hrest⟩
        | some e0 =>
          rw [runBasic, if_neg hc] at hev
          simp only [hm] at hev
          rcases List.mem_append.mp hev with hevi | hev2
          · obtain ⟨h', k, ea, hmem, hev', hk, hiff⟩ := runItem_events ev hevi
            exact Or.inr ⟨h'.hid, k, ea, bps, hev', hiff, h', lifthere hmem, rfl, hk⟩
          · rcases ih _ _ _ ev hev2 with hl | ⟨hid, k, ea, bps', hev', hiff, h, hmem, hrest⟩
            · exact Or.inl hl
            · exact Or.inr ⟨hid, k, ea, bps', hev', hiff, h, liftrest hmem, hrest⟩

/-- Master invariant of a top-level walk: every event is a param event or a
handler event whose kind is the registration-time kind of a handler
registered in the walked Layers (including mounted sub-Routers), normal
exactly when the error slot was empty at invocation. -/
theorem runTop_events (reg : PReg) (m : String) (path : Path) :
    ∀ (ls : List Layer) (seen : List String) (err : Option Nat) (c : Bool),
      ∀ ev ∈ (runTop reg m path ls seen err c).evs,
        (∃ n hid v, ev = Ev.pevent n hid v) ∨
        (∃ hid k ea pa pr, ev = Ev.hevent hid k ea pa pr ∧
          (k = HKind.normal ↔ ea = none) ∧
          ∃ h, h ∈ layersHandlers ls ∧ hid = h.hid ∧ k = hkind h) := by
  intro ls
  induction ls with
  | nil => intro seen err c ev hev; simp [runTop] at hev
  | cons L rest ih =>
    intro seen err c ev hev
    cases L with
    | basic B =>
      have liftrest : ∀ {x : Handler}, x ∈ layersHandlers rest → x ∈ layersHandlers (.basic B :: rest) := by
        intro x hx
        show x ∈ B.item.handlers ++ layersHandlers rest
        exact List.mem_append.mpr (Or.inr hx)
      have lifthere : ∀ {x : Handler}, x ∈ B.item.handlers → x ∈ layersHandlers (.basic B :: rest) := by
        intro x hx
        show x ∈ B.item.handlers ++ layersHandlers rest
        exact List.mem_append.mpr (Or.inl hx)
      by_cases hc : c = true
      · rw [runTop, if_pos hc] at hev; simp at hev
      · rcases hm : matchB B m path with _ | bps
        · rw [runTop, if_neg hc] at hev
          simp only [hm] at hev
          rcases ih seen err c ev hev with hl | ⟨hid, k, ea, pa, pr, hev', hiff, h, hmem, hrest⟩
          · exact Or.inl hl
          · exact Or.inr ⟨hid, k, ea, pa, pr, hev', hiff, h, liftrest hmem, hrest⟩
        · cases err with
          | none =>
            rw [runTop, if_neg hc] at hev
            simp only [hm] at hev
            rcases hp : (runParams reg bps seen).err with _ | e
            · simp only [hp] at hev
              rcases List.mem_append.mp hev with hev1 | hev2
              · rcases List.mem_append.mp hev1 with hevp | hevi
                · exact Or.inl (runParams_events reg bps seen ev hevp)
                · obtain ⟨h', k, ea, hmem, hev', hk, hiff⟩ := runItem_events ev hevi
                  exact Or.inr ⟨h'.hid, k, ea, path, [] ++ bps, hev', hiff, h', lifthere hmem, rfl, hk⟩
              · rcases ih _ _ _ ev hev2 with hl | ⟨hid, k, ea, pa, pr, hev', hiff, h, hmem, hrest⟩
                · exact Or.inl hl
                · exact Or.inr ⟨hid, k, ea, pa, pr, hev', hiff, h, liftrest hmem, hrest⟩
            · simp only [hp] at hev
              rcases List.mem_append.mp hev with hevp | hev2
              · exact Or.inl (runParams_events reg bps seen ev hevp)
              · rcases ih _ _ _ ev hev2 with hl | ⟨hid, k, ea, pa, pr, hev', hiff, h, hmem, hrest⟩
                · exact Or.inl hl
                · exact Or.inr ⟨hid, k, ea, pa, pr, hev', hiff, h, liftrest hmem, hrest⟩
          | some e0 =>
            rw [runTop, if_neg hc] at hev
            simp only [hm] at hev
            rcases List.mem_append.mp hev with hevi | hev2
            · obtain ⟨h', k, ea, hmem, hev', hk, hiff⟩ := runItem_events ev hevi
              exact Or.inr ⟨h'.hid, k, ea, path, [] ++ bps, hev', hiff, h', lifthere hmem, rfl, hk⟩
            · rcases ih _ _ _ ev hev2 with hl | ⟨hid, k, ea, pa, pr, hev', hiff, h, hmem, hrest⟩
              · exact Or.inl hl
              · exact Or.inr ⟨hid, k, ea, pa, pr, hev', hiff, h, liftrest hmem, hrest⟩
    | mount pat sub =>
      have liftrest : ∀ {x : Handler}, x ∈ layersHandlers rest → x ∈ layersHandlers (.mount pat sub :: rest) := by
        intro x hx
        show x ∈ handlersOfB sub.layers ++ layersHandlers rest
        exact List.mem_append.mpr (Or.inr hx)
      have lifthere : ∀ {x : Handler}, x ∈ handlersOfB sub.layers → x ∈ layersHandlers (.mount pat sub :: rest) := by
        intro x hx
        show x ∈ handlersOfB sub.layers ++ layersHandlers rest
        exact List.mem_append.mpr (Or.inl hx)
      by_cases hc : c = true
      · simp only [runTop, if_pos hc] at hev
        simp at hev
      · have step : ∀ (q : Params × Path),
            ev ∈ (let base := if sub.opts.mergeParams then q.1 else []
                  match err with
                  | none =>
                    let p := runParams reg q.1 seen
                    match p.err with
                    | some e =>
                      let r := runTop reg m path rest p.seen (some e) false
                      (⟨p.evs ++ r.evs, r.err, r.complete, r.seen⟩ : BRes)
                    | none =>
                      let s := runBasic sub.preg m q.2 base sub.layers [] none false
                      let r := runTop reg m path rest p.seen s.err s.complete
                      (⟨p.evs ++ s.evs ++ r.evs, r.err, r.complete, r.seen⟩ : BRes)
                  | some e0 =>
                    let s := runBasic sub.preg m q.2 base sub.layers [] (some e0) false
                    let r := runTop reg m path rest seen s.err s.complete
                    (⟨s.evs ++ r.evs, r.err, r.complete, r.seen⟩ : BRes)).evs →
            (∃ n hid v, ev = Ev.pevent n hid v) ∨
            (∃ hid k ea pa pr, ev = Ev.hevent hid k ea pa pr ∧
              (k = HKind.normal ↔ ea = none) ∧
              ∃ h, h ∈ layersHandlers (.mount pat sub :: rest) ∧ hid = h.hid ∧ k = hkind h) := by
          intro q hq
          cases err with
          | none =>
            rcases hp : (runParams reg q.1 seen).err with _ | e
            · simp only [hp] at hq
              rcases List.mem_append.mp hq with hev1 | hev2
              · rcases List.mem_append.mp hev1 with hevp | hevs
                · exact Or.inl (runParams_events reg q.1 seen ev hevp)
                · rcases runBasic_events sub.preg m q.2
                      (if sub.opts.mergeParams = true then q.1 else []) sub.layers [] none false ev hevs with
                    hl | ⟨hid, k, ea, bps, hev', hiff, h, hmem, hrest⟩
                  · exact Or.inl hl
                  · exact Or.inr ⟨hid, k, ea, q.2, _, hev', hiff, h, lifthere hmem, hrest⟩
              · rcases ih _ _ _ ev hev2 with hl | ⟨hid, k, ea, pa, pr, hev', hiff, h, hmem, hrest⟩
                · exact Or.inl hl
                · exact Or.inr ⟨hid, k, ea, pa, pr, hev', hiff, h, liftrest hmem, hrest⟩
            · simp only [hp] at hq
              rcases List.mem_append.mp hq with hevp | hev2
              · exact Or.inl (runParams_events reg q.1 seen ev hevp)
              · rcases ih _ _ _ ev hev2 with hl | ⟨hid, k, ea, pa, pr, hev', hiff, h, hmem, hrest⟩
                · exact Or.inl hl
                · exact Or.inr ⟨hid, k, ea, pa, pr, hev', hiff, h, liftrest hmem, hrest⟩
          | some e0 =>
            rcases List.mem_append.mp hq with hevs | hev2
            · rcases runBasic_events sub.preg m q.2
                  (if sub.opts.mergeParams = true then q.1 else []) sub.layers [] (some e0) false ev hevs with
                hl | ⟨hid, k, ea, bps, hev', hiff, h, hmem, hrest⟩
              · exact Or.inl hl
              · exact Or.inr ⟨hid, k, ea, q.2, _, hev', hiff, h, lifthere hmem, hrest⟩
            · rcases ih _ _ _ ev hev2 with hl | ⟨hid, k, ea, pa, pr, hev', hiff, h, hmem, hrest⟩
              · exact Or.inl hl
              · exact Or.inr ⟨hid, k, ea, pa, pr, hev', hiff, h, liftrest hmem, hrest⟩
        cases pat with
        | none =>
          simp only [runTop, if_neg hc] at hev
          exact step ([], path) hev
        | some pp =>
          simp only [runTop, if_neg hc] at hev
          rcases hpm : matchMount pp.opts.caseSensitive pp.segs path with _ | pr0
          · simp only [hpm] at hev
            rcases ih seen _ c ev hev with hl | ⟨hid, k, ea, pa, pr, hev2, hiff, h, hmem, hrest⟩
            · exact Or.inl hl
            · exact Or.inr ⟨hid, k, ea, pa, pr, hev2, hiff, h, liftrest hmem, hrest⟩
          · simp only [hpm] at hev
            exact step pr0 hev

deriving instance DecidableEq for Except

/-- The options object constructed in `src/test/router-options.ts`:
`{caseSensitive: true, mergeParams: true, strict: true}`. -/
def optsAll : Options := ⟨true, true, true⟩

/-- The fresh Route Layer created by the first `all`/`route` registration
for a path (spec 4.3). -/
def freshAllLayer (pat : PathPattern) (hs : List Handler) : Layer :=
  .basic ⟨some pat, none, .routeIt ⟨[], hs⟩⟩

/-- Appending to the named registry entry extends exactly that entry. -/
theorem lookupP_addParamEntry_same :
    ∀ (reg : PReg) (n : String) (ph : PHandler),
      lookupP (addParamEntry reg n ph) n = lookupP reg n ++ [ph] := by
  intro reg n ph
  induction reg with
  | nil => simp [addParamEntry, lookupP, List.find?]
  | cons p rest ih =>
    obtain ⟨k, hs⟩ := p
    by_cases hk : k = n
    · simp [addParamEntry, hk, lookupP, List.find?]
    · simp only [addParamEntry, if_neg hk]
      simp only [lookupP, List.find?]
      simp only [show (decide (k = n)) = false from by simp [hk]]
      exact ih

/-- Appending to one registry entry leaves every other entry unchanged. -/
theorem lookupP_addParamEntry_other :
    ∀ (reg : PReg) (n n' : String) (ph : PHandler), n' ≠ n →
      lookupP (addParamEntry reg n ph) n' = lookupP reg n' := by
  intro reg n n' ph hne
  induction reg with
  | nil =>
    simp [addParamEntry, lookupP, List.find?, show (decide (n = n')) = false from by
      simp; exact fun h => absurd h.symm hne]
  | cons p rest ih =>
    obtain ⟨k, hs⟩ := p
    by_cases hk : k = n
    · subst hk
      simp [addParamEntry, lookupP, List.find?, show (decide (k = n')) = false from by
        simp; exact fun h => absurd h.symm hne]
    · simp only [addParamEntry, if_neg hk]
      simp only [lookupP, List.find?]
      by_cases hk' : k = n'
      · simp [hk']
      · simp only [show (decide (k = n')) = false from by simp [hk']]
        exact ih

/-- A verb registration either appends one fresh Route Layer (no Layer for
that pattern yet) or rewrites exactly the first Route Layer carrying that
pattern, in place (spec 4.3). -/
theorem insertVerb_spec (pat : PathPattern) (m : String) (hs : List Handler) :
    ∀ ls : List Layer,
      insertVerb pat m hs ls = ls ++ [freshRouteLayer pat m hs] ∨
      ∃ pre L post, ls = pre ++ L :: post ∧ sameRoutePat L pat = true ∧
        insertVerb pat m hs ls = pre ++ extendLayer L m hs :: post := by
  intro ls
  induction ls with
  | nil => exact Or.inl rfl
  | cons L rest ih =>
    by_cases hL : sameRoutePat L pat = true
    · exact Or.inr ⟨[], L, rest, rfl, hL, by simp [insertVerb, hL]⟩
    · rcases ih with h | ⟨pre, L', post, hls, hsr, hres⟩
      · refine Or.inl ?_
        simp [insertVerb, hL, h]
      · refine Or.inr ⟨L :: pre, L', post, by rw [hls]; rfl, hsr, ?_⟩
        simp [insertVerb, hL, hres]

/-- Same shape property for `all`/`route` registration. -/
theorem insertAll_spec (pat : PathPattern) (hs : List Handler) :
    ∀ ls : List Layer,
      insertAll pat hs ls = ls ++ [freshAllLayer pat hs] ∨
      ∃ pre L post, ls = pre ++ L :: post ∧ sameRoutePat L pat = true ∧
        insertAll pat hs ls = pre ++ extendLayerAll L hs :: post := by
  intro ls
  induction ls with
  | nil => exact Or.inl rfl
  | cons L rest ih =>
    by_cases hL : sameRoutePat L pat = true
    · exact Or.inr ⟨[], L, rest, rfl, hL, by simp [insertAll, hL]⟩
    · rcases ih with h | ⟨pre, L', post, hls, hsr, hres⟩
      · refine Or.inl ?_
        simp [insertAll, hL, h]
      · refine Or.inr ⟨L :: pre, L', post, by rw [hls]; rfl, hsr, ?_⟩
        simp [insertAll, hL, hres]

/-- The walk of a chain of unscoped `use` Layers whose handlers are all
normal-kind and all call `next()` invokes them in exactly registration
order (spec 4.4, 5). -/
theorem runTop_use_chain (reg : PReg) (m : String) (path : Path) :
    ∀ (hs : List Handler), (∀ h ∈ hs, hkind h = HKind.normal ∧ h.act = HAct.callNext) →
      ∀ (seen : List String),
        runTop reg m path (hs.map (fun h => .basic ⟨none, none, .single h⟩)) seen none false
          = ⟨hs.map (fun h => Ev.hevent h.hid HKind.normal none path []), none, false, seen⟩ := by
  intro hs
  induction hs with
  | nil => intro _ seen; rfl
  | cons h rest ih =>
    intro hall seen
    obtain ⟨hk, ha⟩ := hall h (List.mem_cons_self _ _)
    have hke : ¬hkind h = HKind.error := by rw [hk]; intro hcon; cases hcon
    have ihr := ih (fun x hx => hall x (List.mem_cons_of_mem _ hx)) seen
    simp only [List.map_cons, runTop, matchB, BLayer.accepts, runItem, runChain,
      if_neg hke, ha, applyAct, ihr, hk]
    simp [runParams, ihr]

/-- The two overloads the declaration surface gives `Router.param`
(`src/lib/router/index.d.ts` lines 59-64): the two-argument
`param(name, handler)` form, and the single-argument matcher-factory form
`param((name, matcher) => ParamHandler)`. -/
inductive ParamOverload
  | nameHandler
  | matcherFactory
deriving DecidableEq, Repr

/-- The declared `param` registration surface, each overload paired with
whether the declaration marks it `@deprecated` (`index.d.ts` lines 59-64:
the matcher-factory overload carries the `@deprecated` tag, the
two-argument form does not). -/
def routerParamOverloads : List (ParamOverload × Bool) :=
  [(.nameHandler, false), (.matcherFactory, true)]

/-- Base Router for the registration-frame counterexample. -/
def c10r0 : Router := Router.empty optsAll

/-- Router after `get("/p", h1)`. -/
def c10r1 : Router :=
  match c10r0.addVerb ["p"] "GET" [.one ⟨1, 3, .callNext⟩] with
  | .ok r => r
  | .error _ => c10r0

/-- Router after a further `post("/p", h2)` on the same path. -/
def c10r2 : Router :=
  match c10r1.addVerb ["p"] "POST" [.one ⟨2, 3, .callNext⟩] with
  | .ok r => r
  | .error _ => c10r1

/-- C1: for every request traversal, once a handler invokes `next(error)`
(or throws synchronously), no subsequent normal-kind handler executes:
every handler invoked while the error slot is set is error-kind, until an
error-kind handler calls `next()` with no argument, which returns dispatch
to normal scanning.  First conjunct: in any traversal of any Router, a
handler invoked with a non-empty error slot is error-kind (so no
normal-kind handler ever runs between `next(error)` and recovery).  Second
conjunct: a concrete traversal in which handler 1 errors, normal handler 2
is skipped, error-kind handler 3 is invoked with the error and recovers via
`next()`, after which normal handler 4 runs again. -/
theorem c1_error_short_circuit :
    (∀ (r : Router) (m : String) (path : Path) (hid : Nat) (k : HKind) (e : Nat)
        (pa : Path) (pr : Params),
       Ev.hevent hid k (some e) pa pr ∈ (r.handle m path).1 → k = HKind.error) ∧
    ((Router.empty optsAll |>.use [.one ⟨1, 3, .callNextError 5⟩, .one ⟨2, 3, .callNext⟩,
        .one ⟨3, 4, .callNext⟩, .one ⟨4, 3, .callNext⟩]).handle "GET" []
      = ([Ev.hevent 1 .normal none [] [], Ev.hevent 3 .error (some 5) [] [],
          Ev.hevent 4 .normal none [] []], Terminal.notFound)) := by
  constructor
  · intro r m path hid k e pa pr hmem
    have hmem' : Ev.hevent hid k (some e) pa pr ∈ (runTop r.preg m path r.layers [] none false).evs := by
      simpa [Router.handle] using hmem
    rcases runTop_events r.preg m path r.layers [] none false _ hmem' with
      ⟨n, hid2, v, hcon⟩ | ⟨hid2, k2, ea2, pa2, pr2, heq, hiff, _⟩
    · cases hcon
    · rw [Ev.hevent.injEq] at heq
      obtain ⟨h1, h2, h3, h4, h5⟩ := heq
      rw [← h2, ← h3] at hiff
      cases k with
      | normal => exact absurd (hiff.mp rfl) (by intro hcon; cases hcon)
      | error => rfl
  · decide

/-- Witness for C1 at a concrete traversal: the error-kind invocation of
handler 3 is in the trace, and the theorem applied there yields its kind. -/
theorem c1_error_short_circuit_witness :
    (Ev.hevent 3 HKind.error (some 5) [] [] ∈
      ((Router.empty optsAll |>.use [.one ⟨1, 3, .callNextError 5⟩, .one ⟨2, 3, .callNext⟩,
          .one ⟨3, 4, .callNext⟩, .one ⟨4, 3, .callNext⟩]).handle "GET" []).1) ∧
    HKind.error = HKind.error :=
  ⟨by decide,
   c1_error_short_circuit.1
     (Router.empty optsAll |>.use [.one ⟨1, 3, .callNextError 5⟩, .one ⟨2, 3, .callNext⟩,
        .one ⟨3, 4, .callNext⟩, .one ⟨4, 3, .callNext⟩])
     "GET" [] 3 HKind.error 5 [] [] (by decide)⟩

/-- C2: for every single request and every parameter name registered via
`param` on a Router, the handlers for that name execute at most once at
that Router during the traversal, even if several matched Layers bind the
name.  First conjunct: over any walk of any Router level, the param events
for a name form an order-preserving prefix of ONE pass over that name's
registered hook list (so each hook runs at most once, in registration
order; the prefix is proper only when a hook signals failure).  Second
conjunct: a request matching two Layers that both bind `id` runs the
registered `id` hook exactly once. -/
theorem c2_param_hooks_once :
    (∀ (reg : PReg) (m : String) (path : Path) (base : Params) (ls : List BLayer) (n : String),
       ∃ v, pfilter n (runBasic reg m path base ls [] none false).evs <+:
         (lookupP reg n).map (fun ph => Ev.pevent n ph.hid v)) ∧
    (pfilter "id" ((Router.mk
        [.basic ⟨some ⟨[.prm "id", .lit "x"], optsAll⟩, none, .single ⟨1, 3, .callNext⟩⟩,
         .basic ⟨some ⟨[.prm "id", .lit "x"], optsAll⟩, none, .single ⟨2, 3, .callNext⟩⟩]
        [("id", [⟨9, none⟩])] optsAll).handle "GET" ["7", "x"]).1
      = (lookupP [("id", [⟨9, none⟩])] "id").map (fun ph => Ev.pevent "id" ph.hid "7")) := by
  constructor
  · intro reg m path base ls n
    obtain ⟨v, k, hk⟩ := runBasic_pfilter reg m path base ls [] none false (by simp)
    refine ⟨v, ((lookupP reg n).drop k).map (fun ph => Ev.pevent n ph.hid v), ?_⟩
    rw [hk, ← List.map_append, List.take_append_drop]
  · decide

/-- C3: for every sub-Router mounted at a prefix and every request whose
path extends that prefix on a segment boundary, the sub-Router observes the
unmatched remainder as its path, and when its `mergeParams` option is set
the parameters captured by the mount-prefix pattern remain present in the
parameter bag every sub-Router handler observes (the mount captures are a
prefix of the observed bag, extended — not shadowed — by the sub-Router's
own captures). -/
theorem c3_mount_remainder_merge :
    ∀ (pp : PathPattern) (sub : SubRouter) (preg : PReg) (o : Options) (m : String)
      (path rem : Path) (prms : Params),
      sub.opts.mergeParams = true →
      matchMount pp.opts.caseSensitive pp.segs path = some (prms, rem) →
      ∀ (hid : Nat) (k : HKind) (ea : Option Nat) (pa : Path) (pr : Params),
        Ev.hevent hid k ea pa pr ∈ ((Router.mk [.mount (some pp) sub] preg o).handle m path).1 →
        pa = rem ∧ prms <+: pr := by
  intro pp sub preg o m path rem prms hmg hmm hid k ea pa pr hmem
  simp only [Router.handle] at hmem
  rcases hp : (runParams preg prms []).err with _ | e
  · simp [runTop, hmm, hp, hmg] at hmem
    rcases hmem with hp1 | hs1
    · obtain ⟨n, hid2, v, hcon⟩ := runParams_events preg prms [] _ hp1
      cases hcon
    · rcases runBasic_events sub.preg m rem prms sub.layers [] none false _ hs1 with
        ⟨n, hid2, v, hcon⟩ | ⟨hid2, k2, ea2, bps, heq, hiff, _⟩
      · cases hcon
      · rw [Ev.hevent.injEq] at heq
        obtain ⟨h1, h2, h3, h4, h5⟩ := heq
        exact ⟨h4, bps, h5.symm⟩
  · simp [runTop, hmm, hp, hmg] at hmem
    obtain ⟨n, hid2, v, hcon⟩ := runParams_events preg prms [] _ hmem
    cases hcon

/-- Witness for C3: mounting a sub-Router at `/api/:v` with `mergeParams`
and requesting `/api/1/users/7`, the sub-Router's handler observes path
`/users/7` and a bag beginning with the mount capture `v = 1`. -/
theorem c3_mount_remainder_merge_witness :
    (SubRouter.mk [⟨none, none, .single ⟨1, 3, .callNext⟩⟩] [] optsAll).opts.mergeParams = true ∧
    matchMount (PathPattern.mk [.lit "api", .prm "v"] optsAll).opts.caseSensitive
      (PathPattern.mk [.lit "api", .prm "v"] optsAll).segs ["api", "1", "users", "7"]
      = some ([("v", "1")], ["users", "7"]) ∧
    (Ev.hevent 1 HKind.normal none ["users", "7"] [("v", "1")] ∈
      ((Router.mk [.mount (some ⟨[.lit "api", .prm "v"], optsAll⟩)
          ⟨[⟨none, none, .single ⟨1, 3, .callNext⟩⟩], [], optsAll⟩] [] optsAll).handle
        "GET" ["api", "1", "users", "7"]).1) ∧
    (["users", "7"] = ["users", "7"] ∧ [("v", "1")] <+: [("v", "1")]) :=
  ⟨rfl, by decide, by decide,
   c3_mount_remainder_merge ⟨[.lit "api", .prm "v"], optsAll⟩
     ⟨[⟨none, none, .single ⟨1, 3, .callNext⟩⟩], [], optsAll⟩ [] optsAll
     "GET" ["api", "1", "users", "7"] ["users", "7"] [("v", "1")]
     rfl (by decide) 1 HKind.normal none ["users", "7"] [("v", "1")] (by decide)⟩

/-- C4: handlers registered via `use` on the same unscoped path of one
Router are invoked in exactly registration order when each calls `next()`,
with nested handler arrays flattened in order at registration time. -/
theorem c4_registration_order (o : Options) (args : List HArg) (m : String) (path : Path)
    (hall : ∀ h ∈ flattenArgs args, hkind h = HKind.normal ∧ h.act = HAct.callNext) :
    ((Router.empty o).use args).handle m path
      = ((flattenArgs args).map (fun h => Ev.hevent h.hid HKind.normal none path []),
         Terminal.notFound) := by
  unfold Router.handle Router.use Router.empty
  simp only [List.nil_append]
  rw [runTop_use_chain [] m path (flattenArgs args) hall []]
  rfl

/-- Witness for C4: `use(a, [b], c)` flattens to `[a, b, c]` and invokes
them in that order. -/
theorem c4_registration_order_witness :
    (∀ h ∈ flattenArgs [HArg.one ⟨1, 3, .callNext⟩, HArg.many [⟨2, 3, .callNext⟩],
        HArg.one ⟨3, 3, .callNext⟩], hkind h = HKind.normal ∧ h.act = HAct.callNext) ∧
    ((Router.empty optsAll).use [HArg.one ⟨1, 3, .callNext⟩, HArg.many [⟨2, 3, .callNext⟩],
        HArg.one ⟨3, 3, .callNext⟩]).handle "GET" ["x"]
      = ([Ev.hevent 1 .normal none ["x"] [], Ev.hevent 2 .normal none ["x"] [],
          Ev.hevent 3 .normal none ["x"] []], Terminal.notFound) :=
  ⟨by decide,
   c4_registration_order optsAll
     [HArg.one ⟨1, 3, .callNext⟩, HArg.many [⟨2, 3, .callNext⟩], HArg.one ⟨3, 3, .callNext⟩]
     "GET" ["x"] (by decide)⟩

/-- C5: the Dispatcher treats a registered handler as error-kind exactly
when it declares four parameters (the `ErrorHandler` shape) and as
normal-kind when it declares three; the kind used during dispatch is the
registration-time tag of a registered handler and never varies per request:
every trace event carries the registration-time kind of a handler
registered on the Router, error-kind handlers are invoked only in the
Erroring state and normal-kind ones only while Scanning. -/
theorem c5_kind_from_arity :
    (∀ h : Handler, hkind h = HKind.error ↔ h.arity = 4) ∧
    (∀ (r : Router) (m : String) (path : Path) (hid : Nat) (k : HKind) (ea : Option Nat)
        (pa : Path) (pr : Params),
       Ev.hevent hid k ea pa pr ∈ (r.handle m path).1 →
         (k = HKind.normal ↔ ea = none) ∧
         ∃ h, h ∈ r.allHandlers ∧ hid = h.hid ∧ k = hkind h) := by
  constructor
  · intro h
    unfold hkind
    by_cases ha : h.arity = 4 <;> simp [ha]
  · intro r m path hid k ea pa pr hmem
    have hmem' : Ev.hevent hid k ea pa pr ∈ (runTop r.preg m path r.layers [] none false).evs := by
      simpa [Router.handle] using hmem
    rcases runTop_events r.preg m path r.layers [] none false _ hmem' with
      ⟨n, hid2, v, hcon⟩ | ⟨hid2, k2, ea2, pa2, pr2, heq, hiff, h, hmemh, hhid, hk⟩
    · cases hcon
    · rw [Ev.hevent.injEq] at heq
      obtain ⟨h1, h2, h3, h4, h5⟩ := heq
      refine ⟨by rw [h2, h3]; exact hiff, h, hmemh, by rw [h1]; exact hhid, by rw [h2]; exact hk⟩

/-- Witness for C5 at a concrete traversal: the invocation of four-argument
handler 2 during the Erroring state carries kind `error`, which is the
registration-time kind of a registered handler. -/
theorem c5_kind_from_arity_witness :
    (Ev.hevent 2 HKind.error (some 9) [] [] ∈
      ((Router.empty optsAll |>.use [.one ⟨1, 3, .callNextError 9⟩,
          .one ⟨2, 4, .callNext⟩]).handle "GET" []).1) ∧
    ((HKind.error = HKind.normal ↔ (some 9 : Option Nat) = none) ∧
      ∃ h, h ∈ (Router.empty optsAll |>.use [.one ⟨1, 3, .callNextError 9⟩,
          .one ⟨2, 4, .callNext⟩]).allHandlers ∧ 2 = h.hid ∧ HKind.error = hkind h) :=
  ⟨by decide,
   c5_kind_from_arity.2
     (Router.empty optsAll |>.use [.one ⟨1, 3, .callNextError 9⟩, .one ⟨2, 4, .callNext⟩])
     "GET" [] 2 HKind.error (some 9) [] [] (by decide)⟩

/-- C6: a handler that throws synchronously is caught at the point of
invocation and the traversal continues exactly as if it had called
`next(error)` with the thrown value.  First conjunct: rewriting every
synchronous throw into the explicit `next(error)` call leaves every
traversal of every Router unchanged (identical trace and terminal, so the
Router never crashes).  Second conjunct: a normal-kind handler that throws
produces exactly one invocation event and drives dispatch into the Erroring
state, surfacing the thrown value at the terminal continuation. -/
theorem c6_sync_throw_as_next_error :
    (∀ (r : Router) (m : String) (path : Path), r.detox.handle m path = r.handle m path) ∧
    (∀ (h : Handler) (e : Nat) (o : Options) (m : String) (path : Path),
       h.act = HAct.throwSync e → hkind h = HKind.normal →
       ((Router.empty o).use [.one h]).handle m path
         = ([Ev.hevent h.hid HKind.normal none path []], Terminal.errored e)) := by
  refine ⟨fun r m path => handle_detox r m path, ?_⟩
  intro h e o m path ha hk
  have hke : ¬hkind h = HKind.error := by rw [hk]; intro hcon; cases hcon
  unfold Router.handle Router.use Router.empty
  simp only [flattenArgs, List.map_cons, List.map_nil, List.nil_append]
  simp [runTop, matchB, BLayer.accepts, runItem, runChain, runParams, if_neg hke, ha,
    applyAct, hk]

/-- Witness for C6: a three-argument handler throwing the value 42 is
recorded as a single normal-kind invocation and the traversal terminates
erroring with 42. -/
theorem c6_sync_throw_as_next_error_witness :
    (Handler.mk 7 3 (.throwSync 42)).act = HAct.throwSync 42 ∧
    hkind ⟨7, 3, .throwSync 42⟩ = HKind.normal ∧
    ((Router.empty optsAll).use [.one ⟨7, 3, .throwSync 42⟩]).handle "GET" []
      = ([Ev.hevent 7 HKind.normal none [] []], Terminal.errored 42) :=
  ⟨rfl, rfl,
   c6_sync_throw_as_next_error.2 ⟨7, 3, .throwSync 42⟩ 42 optsAll "GET" [] rfl rfl⟩

/-- C7: a syntactically invalid path pattern makes every registration
operation (`use` with a path, a verb method, `all`, `route`, mounting) fail
with the `PatternError` at registration time: the error is returned
(surfaced, never swallowed), the registration aborts, and no Router — hence
no Layer — is produced for the bad pattern. -/
theorem c7_pattern_error_registration :
    ∀ (r : Router) (p : List String) (e : PatternError),
      compilePattern r.opts p = .error e →
      (∀ args, r.useAt p args = .error e) ∧
      (∀ m args, r.addVerb p m args = .error e) ∧
      (∀ args, r.all p args = .error e) ∧
      r.route p = .error e ∧
      (∀ sub, r.useMount p sub = .error e) := by
  intro r p e hc
  refine ⟨fun args => ?_, fun m args => ?_, fun args => ?_, ?_, fun sub => ?_⟩ <;>
    simp [Router.useAt, Router.addVerb, Router.all, Router.route, Router.useMount, hc]

/-- Witness for C7: the pattern segment `":"` (placeholder with no name)
fails to compile, and every registration operation surfaces that
`PatternError`. -/
theorem c7_pattern_error_registration_witness :
    compilePattern (Router.empty optsAll).opts [":"] = .error (.emptyParamName ":") ∧
    ((∀ args, (Router.empty optsAll).useAt [":"] args = .error (.emptyParamName ":")) ∧
     (∀ m args, (Router.empty optsAll).addVerb [":"] m args = .error (.emptyParamName ":")) ∧
     (∀ args, (Router.empty optsAll).all [":"] args = .error (.emptyParamName ":")) ∧
     (Router.empty optsAll).route [":"] = .error (.emptyParamName ":") ∧
     (∀ sub, (Router.empty optsAll).useMount [":"] sub = .error (.emptyParamName ":"))) :=
  ⟨rfl, c7_pattern_error_registration (Router.empty optsAll) [":"] (.emptyParamName ":") rfl⟩

/-- Counterexample to C8 as stated: the declared registration surface of
`Router.param` is not only the two-argument form — the single-argument
matcher-factory overload is declared too (`index.d.ts` lines 61-64), albeit
tagged `@deprecated`. -/
theorem c8_param_overloads_counterexample :
    (ParamOverload.matcherFactory, true) ∈ routerParamOverloads ∧
    routerParamOverloads.map Prod.fst ≠ [ParamOverload.nameHandler] := by
  decide

/-- C8 (amended): the non-deprecated `param` surface is exactly the
two-argument `param(name, handler)` form; the single-argument
matcher-factory form is present in the declarations only as a
`@deprecated` legacy overload, and the modelled engine's `param`
registration takes only a name and handler. -/
theorem c8_param_overloads_amended :
    (routerParamOverloads.filter (fun po => !po.2)).map Prod.fst = [ParamOverload.nameHandler] ∧
    (ParamOverload.matcherFactory, true) ∈ routerParamOverloads ∧
    (∀ (r : Router) (n : String) (ph : PHandler),
      (r.param n ph).preg = addParamEntry r.preg n ph) := by
  exact ⟨by decide, by decide, fun r n ph => rfl⟩

/-- C9: once the response is marked complete (or the underlying response is
no longer writable because it was closed), the Dispatcher invokes no
further handler even if `next` is invoked afterwards.  First two conjuncts:
from a completed state, a walk at either Router level emits no event and
changes nothing.  Third conjunct: a handler that completes the response and
then still calls `next()` is the last invocation of the traversal, which
terminates as completed. -/
theorem c9_complete_stops_dispatch :
    (∀ (reg : PReg) (m : String) (path : Path) (ls : List Layer) (seen : List String)
        (err : Option Nat),
      runTop reg m path ls seen err true = ⟨[], err, true, seen⟩) ∧
    (∀ (reg : PReg) (m : String) (path : Path) (base : Params) (ls : List BLayer)
        (seen : List String) (err : Option Nat),
      runBasic reg m path base ls seen err true = ⟨[], err, true, seen⟩) ∧
    ((Router.empty optsAll |>.use [.one ⟨6, 3, .completeThenNext⟩,
        .one ⟨2, 3, .callNext⟩]).handle "GET" []
      = ([Ev.hevent 6 .normal none [] []], Terminal.completed)) := by
  refine ⟨?_, ?_, by decide⟩
  · intro reg m path ls seen err
    cases ls with
    | nil => rfl
    | cons L rest => cases L <;> simp [runTop]
  · intro reg m path base ls seen err
    cases ls with
    | nil => rfl
    | cons L rest => simp [runBasic]

/-- Counterexample to C10 as stated: a second verb registration on a path
that already has a Route Layer does not leave previously registered Layers
unchanged — it extends the existing Route Layer in place (spec 4.3 reuse),
so the Layer list changes without growing. -/
theorem c10_registration_counterexample :
    c10r0.addVerb ["p"] "GET" [.one ⟨1, 3, .callNext⟩] = .ok c10r1 ∧
    c10r1.addVerb ["p"] "POST" [.one ⟨2, 3, .callNext⟩] = .ok c10r2 ∧
    c10r2.layers.length = c10r1.layers.length ∧
    c10r1.layers ≠ c10r2.layers := by
  decide

/-- C10 (amended): registration returns the updated Router (enabling
chaining) and is append-only at handler-sequence granularity: `use` leaves
options and param entries unchanged and only appends Layers; `param` leaves
options and Layers unchanged, appends to the named registry entry and
leaves every other entry unchanged; a verb or `all` registration leaves
options and param entries unchanged and either appends one fresh Route
Layer (first registration for the pattern) or extends the existing Route
Layer for that pattern in place by appending handlers. -/
theorem c10_registration_frame :
    (∀ (r : Router) (args : List HArg),
       (r.use args).opts = r.opts ∧ (r.use args).preg = r.preg ∧
       ∃ t, (r.use args).layers = r.layers ++ t) ∧
    (∀ (r : Router) (n : String) (ph : PHandler),
       (r.param n ph).opts = r.opts ∧ (r.param n ph).layers = r.layers ∧
       lookupP (r.param n ph).preg n = lookupP r.preg n ++ [ph] ∧
       ∀ n', n' ≠ n → lookupP (r.param n ph).preg n' = lookupP r.preg n') ∧
    (∀ (r : Router) (p : List String) (m : String) (args : List HArg) (r' : Router)
        (pat : PathPattern),
       compilePattern r.opts p = .ok pat → r.addVerb p m args = .ok r' →
       r'.opts = r.opts ∧ r'.preg = r.preg ∧
       (r'.layers = r.layers ++ [freshRouteLayer pat m (flattenArgs args)] ∨
        ∃ pre L post, r.layers = pre ++ L :: post ∧ sameRoutePat L pat = true ∧
          r'.layers = pre ++ extendLayer L m (flattenArgs args) :: post)) ∧
    (∀ (r : Router) (p : List String) (args : List HArg) (r' : Router) (pat : PathPattern),
       compilePattern r.opts p = .ok pat → r.all p args = .ok r' →
       r'.opts = r.opts ∧ r'.preg = r.preg ∧
       (r'.layers = r.layers ++ [freshAllLayer pat (flattenArgs args)] ∨
        ∃ pre L post, r.layers = pre ++ L :: post ∧ sameRoutePat L pat = true ∧
          r'.layers = pre ++ extendLayerAll L (flattenArgs args) :: post)) := by
  refine ⟨fun r args => ⟨rfl, rfl, _, rfl⟩,
    fun r n ph => ⟨rfl, rfl, lookupP_addParamEntry_same r.preg n ph,
      fun n' hne => lookupP_addParamEntry_other r.preg n n' ph hne⟩,
    ?_, ?_⟩
  · intro r p m args r' pat hc hreg
    unfold Router.addVerb at hreg
    rw [hc] at hreg
    injection hreg with hr
    subst hr
    exact ⟨rfl, rfl, insertVerb_spec pat m (flattenArgs args) r.layers⟩
  · intro r p args r' pat hc hreg
    unfold Router.all at hreg
    rw [hc] at hreg
    injection hreg with hr
    subst hr
    exact ⟨rfl, rfl, insertAll_spec pat (flattenArgs args) r.layers⟩

/-- Witness for C10 (amended), at the concrete routers of the
counterexample: the `POST` registration on the occupied path `/p` preserves
options and param entries and rewrites the existing Route Layer in place. -/
theorem c10_registration_frame_witness :
    compilePattern c10r1.opts ["p"] = .ok ⟨[.lit "p"], optsAll⟩ ∧
    c10r1.addVerb ["p"] "POST" [.one ⟨2, 3, .callNext⟩] = .ok c10r2 ∧
    (c10r2.opts = c10r1.opts ∧ c10r2.preg = c10r1.preg ∧
      (c10r2.layers = c10r1.layers
          ++ [freshRouteLayer ⟨[.lit "p"], optsAll⟩ "POST" (flattenArgs [.one ⟨2, 3, .callNext⟩])] ∨
       ∃ pre L post, c10r1.layers = pre ++ L :: post ∧
         sameRoutePat L ⟨[.lit "p"], optsAll⟩ = true ∧
         c10r2.layers = pre
           ++ extendLayer L "POST" (flattenArgs [.one ⟨2, 3, .callNext⟩]) :: post)) :=
  ⟨by decide, by decide,
   c10_registration_frame.2.2.1 c10r1 ["p"] "POST" [.one ⟨2, 3, .callNext⟩] c10r2
     ⟨[.lit "p"], optsAll⟩ (by decide) (by decide)⟩

end TypedExpress
